import Mathlib

/-!
Verification development for the `action-tailscale` GitHub action
(`src/main.ts`).  The TypeScript source is embedded shallowly: pure
helpers become Lean functions on `String` / `List Char` / `Nat`, the
effectful `run` pipeline becomes a pure function from a configuration
and an oracle describing the outside world (HTTP responses, file
system, spawned processes) to a trace of effects plus a final result,
and the `runWithTimeout` promise race becomes a small event-order
transition system.
-/

namespace ActionTailscale

/-! ## JavaScript string primitives used by the source -/

/-- The JavaScript `\s` character class (also the set trimmed by
`String.prototype.trim`): ASCII whitespace plus the Unicode space
separators, NBSP, line/paragraph separators and the BOM. -/
def jsSpace (c : Char) : Bool :=
  c = ' ' ∨ c = '\t' ∨ c = '\n' ∨ c = '\r' ∨ c.toNat = 11 ∨ c.toNat = 12 ∨
  c.toNat = 0xa0 ∨ c.toNat = 0x1680 ∨
  (0x2000 ≤ c.toNat ∧ c.toNat ≤ 0x200a) ∨
  c.toNat = 0x2028 ∨ c.toNat = 0x2029 ∨ c.toNat = 0x202f ∨
  c.toNat = 0x205f ∨ c.toNat = 0x3000 ∨ c.toNat = 0xfeff

/-- JS `s.replace(/\s+/g, '')`: drop every whitespace character. -/
def stripAllWs (s : String) : String :=
  ⟨s.data.filter (fun c => ¬ jsSpace c)⟩

/-- JS `s.trim()`: drop leading and trailing whitespace. -/
def jsTrim (s : String) : String :=
  ⟨((s.data.dropWhile jsSpace).reverse.dropWhile jsSpace).reverse⟩

/-- JS `s.toLowerCase()` restricted to the ASCII range, which is all the
source ever compares after lowering. -/
def lowerStr (s : String) : String := ⟨s.data.map Char.toLower⟩

/-- JS `s.toUpperCase()` restricted to the ASCII range. -/
def upperStr (s : String) : String := ⟨s.data.map Char.toUpper⟩

/-- JS `s.endsWith(suffix)`. -/
def strEndsWith (s suffix : String) : Bool :=
  suffix.data.isSuffixOf s.data

/-! ## SHA-256 (`computeFileSha256`, src/main.ts lines 270-278)

The source pipes the downloaded file through Node's `crypto`
`sha256` hash and reads the digest as lowercase hex.  We embed the
full FIPS 180-4 SHA-256 over a byte list. -/

/-- Truncate to a 32-bit word. -/
def w32 (x : Nat) : Nat := x % 4294967296

/-- Right rotation of a 32-bit word. -/
def rotr32 (x n : Nat) : Nat :=
  w32 ((x >>> n) ||| (x <<< (32 - n)))

def shaCh (x y z : Nat) : Nat := (x &&& y) ^^^ ((x ^^^ 4294967295) &&& z)

def shaMaj (x y z : Nat) : Nat := (x &&& y) ^^^ (x &&& z) ^^^ (y &&& z)

def bigSigma0 (x : Nat) : Nat := rotr32 x 2 ^^^ rotr32 x 13 ^^^ rotr32 x 22

def bigSigma1 (x : Nat) : Nat := rotr32 x 6 ^^^ rotr32 x 11 ^^^ rotr32 x 25

def smallSigma0 (x : Nat) : Nat := rotr32 x 7 ^^^ rotr32 x 18 ^^^ (x >>> 3)

def smallSigma1 (x : Nat) : Nat := rotr32 x 17 ^^^ rotr32 x 19 ^^^ (x >>> 10)

/-- The 64 SHA-256 round constants. -/
def k256 : List Nat :=
  [1116352408, 1899447441, 3049323471, 3921009573,
   961987163, 1508970993, 2453635748, 2870763221,
   3624381080, 310598401, 607225278, 1426881987,
   1925078388, 2162078206, 2614888103, 3248222580,
   3835390401, 4022224774, 264347078, 604807628,
   770255983, 1249150122, 1555081692, 1996064986,
   2554220882, 2821834349, 2952996808, 3210313671,
   3336571891, 3584528711, 113926993, 338241895,
   666307205, 773529912, 1294757372, 1396182291,
   1695183700, 1986661051, 2177026350, 2456956037,
   2730485921, 2820302411, 3259730800, 3345764771,
   3516065817, 3600352804, 4094571909, 275423344,
   430227734, 506948616, 659060556, 883997877,
   958139571, 1322822218, 1537002063, 1747873779,
   1955562222, 2024104815, 2227730452, 2361852424,
   2428436474, 2756734187, 3204031479, 3329325298]

/-- Working state of the compression function. -/
structure Hash8 where
  a : Nat
  b : Nat
  c : Nat
  d : Nat
  e : Nat
  f : Nat
  g : Nat
  h : Nat
deriving DecidableEq, Repr

def initHash : Hash8 :=
  ⟨1779033703, 3144134277, 1013904242, 2773480762,
   1359893119, 2600822924, 528734635, 1541459225⟩

/-- Group bytes into big-endian 32-bit words. -/
def toWords : List Nat → List Nat
  | b0 :: b1 :: b2 :: b3 :: rest =>
      (b0 * 16777216 + b1 * 65536 + b2 * 256 + b3) :: toWords rest
  | _ => []

/-- One extension step of the message schedule: append word `w[n]`. -/
def scheduleStep (ws : List Nat) : List Nat :=
  let n := ws.length
  ws ++ [w32 (smallSigma1 (ws.getD (n - 2) 0) + ws.getD (n - 7) 0 +
              smallSigma0 (ws.getD (n - 15) 0) + ws.getD (n - 16) 0)]

/-- Extend 16 block words to the 64-entry message schedule. -/
def schedule (ws : List Nat) : List Nat :=
  (List.range 48).foldl (fun acc _ => scheduleStep acc) ws

/-- One compression round. -/
def roundStep (st : Hash8) (kw : Nat × Nat) : Hash8 :=
  let t1 := w32 (st.h + bigSigma1 st.e + shaCh st.e st.f st.g + kw.1 + kw.2)
  let t2 := w32 (bigSigma0 st.a + shaMaj st.a st.b st.c)
  ⟨w32 (t1 + t2), st.a, st.b, st.c, w32 (st.d + t1), st.e, st.f, st.g⟩

/-- Compress one 64-byte block into the running hash. -/
def compressBlock (H : Hash8) (block : List Nat) : Hash8 :=
  let ws := schedule (toWords block)
  let st := (k256.zip ws).foldl roundStep H
  ⟨w32 (H.a + st.a), w32 (H.b + st.b), w32 (H.c + st.c), w32 (H.d + st.d),
   w32 (H.e + st.e), w32 (H.f + st.f), w32 (H.g + st.g), w32 (H.h + st.h)⟩

/-- Big-endian 8-byte encoding. -/
def be64 (n : Nat) : List Nat :=
  [(n >>> 56) % 256, (n >>> 48) % 256, (n >>> 40) % 256, (n >>> 32) % 256,
   (n >>> 24) % 256, (n >>> 16) % 256, (n >>> 8) % 256, n % 256]

/-- Big-endian 4-byte encoding. -/
def be32 (n : Nat) : List Nat :=
  [(n >>> 24) % 256, (n >>> 16) % 256, (n >>> 8) % 256, n % 256]

/-- FIPS 180-4 padding: `0x80`, zeros to 56 mod 64, 64-bit bit length. -/
def padMessage (msg : List Nat) : List Nat :=
  let L := msg.length
  msg ++ [128] ++ List.replicate ((119 - L % 64) % 64) 0 ++ be64 (8 * L)

/-- Accumulate bytes into 64-byte blocks (current block held reversed). -/
def chunksGo : List Nat → List Nat → List (List Nat)
  | [], cur => if cur.isEmpty then [] else [cur.reverse]
  | b :: rest, cur =>
      if cur.length = 63 then (b :: cur).reverse :: chunksGo rest []
      else chunksGo rest (b :: cur)

/-- Split into 64-byte blocks. -/
def chunks64 (l : List Nat) : List (List Nat) := chunksGo l []

/-- SHA-256 digest bytes of a byte list. -/
def sha256bytes (msg : List Nat) : List Nat :=
  let Hf := (chunks64 (padMessage msg)).foldl compressBlock initHash
  be32 Hf.a ++ be32 Hf.b ++ be32 Hf.c ++ be32 Hf.d ++
  be32 Hf.e ++ be32 Hf.f ++ be32 Hf.g ++ be32 Hf.h

/-- Lowercase hex digit, as produced by Node `digest('hex')`:
`0`-`9` for nibbles below ten, `a`-`f` for the rest. -/
def hexChar (n : Nat) : Char :=
  if n < 10 then Char.ofNat (48 + n)
  else if n < 16 then Char.ofNat (87 + n)
  else '0'

/-- Lowercase hex encoding of one byte. -/
def byteHex (b : Nat) : List Char := [hexChar (b / 16), hexChar (b % 16)]

/-- `computeFileSha256`: the lowercase hex SHA-256 digest of the file
content, exactly what `crypto.createHash('sha256').digest('hex')`
produces over the streamed bytes. -/
def computeFileSha256 (bytes : List Nat) : String :=
  ⟨(sha256bytes bytes).flatMap byteHex⟩

/-! ## Duration parser (`parseDurationToMs`, src/main.ts lines 373-386) -/

/-- JS `parseInt(ds, 10)` on a digit string, idealized to an exact
natural number (the source stores it in a JS number). -/
def natOfDigits (ds : List Char) : Nat :=
  ds.foldl (fun acc c => acc * 10 + (c.toNat - 48)) 0

/-- `parseDurationToMs`: apply `^(\d+)(ms|s|m|h)$` to
`d.trim().toLowerCase()`.  No unit starts with a digit, so the regex
matches exactly when the maximal digit prefix is nonempty and the
remainder is one of the four unit strings; the `switch` scales by
1, 1000, 60000 or 3600000, and any non-match yields `2 * 60_000`. -/
def parseDurationToMs (d : String) : Nat :=
  let t := (lowerStr (jsTrim d)).data
  let digits := t.takeWhile Char.isDigit
  let unit := t.dropWhile Char.isDigit
  if digits ≠ [] ∧
      (unit = ['m', 's'] ∨ unit = ['s'] ∨ unit = ['m'] ∨ unit = ['h']) then
    let val := natOfDigits digits
    if unit = ['m', 's'] then val
    else if unit = ['s'] then val * 1000
    else if unit = ['m'] then val * 60000
    else val * 3600000
  else 120000

/-! ## Argument tokenizer (`splitArgs`, src/main.ts lines 392-401)

The loop repeatedly applies the regex `[^\s"]+|"([^"]*)"` and pushes
`match[1] ? match[1] : match[0]`: a maximal run of non-space
non-quote characters, or a double-quoted run with the quotes stripped
— except that an *empty* quoted run has a falsy `match[1]`, so the
two-character string `""` itself is pushed.  A quote with no closing
quote matches neither alternative, and the regex engine resumes the
scan one character further on.  We embed the scan with a fuel
parameter (the input length bounds the number of steps) so that the
function is structurally recursive. -/

/-- Characters that may appear in a bare (unquoted) token. -/
def bareChar (c : Char) : Bool := ¬ jsSpace c ∧ c ≠ '"'

/-- Characters the quoted alternative `"([^"]*)"` consumes. -/
def notQuote (c : Char) : Bool := c ≠ '"'

def splitArgsGo : Nat → List Char → List (List Char)
  | 0, _ => []
  | _ + 1, [] => []
  | fuel + 1, c :: rest =>
      if jsSpace c then splitArgsGo fuel rest
      else if c = '"' then
        match rest.dropWhile notQuote with
        | [] => splitArgsGo fuel rest
        | _ :: after =>
            (match rest.takeWhile notQuote with
             | [] => ['"', '"']
             | i :: interior => i :: interior) :: splitArgsGo fuel after
      else
        (c :: rest).takeWhile bareChar ::
          splitArgsGo fuel ((c :: rest).dropWhile bareChar)

/-- `splitArgs` on character lists. -/
def splitArgsL (cs : List Char) : List (List Char) :=
  splitArgsGo cs.length cs

/-- `splitArgs`: tokenize a flag string. -/
def splitArgs (s : String) : List String :=
  (splitArgsL s.data).map fun l => ⟨l⟩

/-! ## Platform resolver (`getPlatformFile`, src/main.ts lines 188-235) -/

structure PlatFile where
  fileName : String
  isWindowsInstaller : Bool
  needExtract : Bool
deriving DecidableEq, Repr

/-- `getPlatformFile`: artifact name and install strategy per OS/arch.
An unsupported OS yields an empty file name. -/
def getPlatformFile (os arch version : String) : PlatFile :=
  if os = "Linux" then
    let tsArch :=
      if arch = "ARM64" then "arm64"
      else if arch = "ARM" then "arm"
      else if arch = "X86" then "386"
      else "amd64"
    ⟨"tailscale_" ++ version ++ "_" ++ tsArch ++ ".tgz", false, true⟩
  else if os = "macOS" then
    if arch = "ARM64" then
      ⟨"Tailscale-" ++ version ++ "-macos-arm64.zip", false, true⟩
    else
      ⟨"Tailscale-" ++ version ++ "-macos.zip", false, true⟩
  else if os = "Windows" then
    ⟨"tailscale-setup-" ++ version ++ ".exe", true, false⟩
  else ⟨"", false, false⟩

/-- `getTailscaledBinaryName` (src/main.ts lines 355-357). -/
def getTailscaledBinaryName (os : String) : String :=
  if os = "Windows" then "tailscaled.exe" else "tailscaled"

/-- `readSystemHostname` (src/main.ts lines 360-367): trim the stdout
of the `hostname` command, or fall back to `unknown-host` when the
command cannot be run.  The command result is an oracle argument. -/
def readSystemHostname (hostnameOut : Except Unit String) : String :=
  match hostnameOut with
  | .ok out => jsTrim out
  | .error _ => "unknown-host"

/-! ## Process supervisor: `runWithTimeout` (src/main.ts lines 319-352)

Node's event loop runs the `exit` listener and the `setTimeout`
callback sequentially, in some order; a JS promise takes only the
first `resolve`/`reject`.  We model one invocation as a fold of a
handler step function over the (finite) sequence of callback firings:
at most one `exit` event and at most one timer firing (the timer runs
at most once, and not at all if `clearTimeout` wins). -/

inductive UpOutcome
  | success
  | exitFailure (code : Option Int)
  | timeoutFailure
deriving DecidableEq, Repr

/-- State of one `runWithTimeout` invocation: the `exited` flag, whether
SIGTERM has been sent, the promise content, and how many times a
`resolve`/`reject` actually settled the promise. -/
structure SupState where
  exited : Bool
  killed : Bool
  settled : Option UpOutcome
  settleCount : Nat
deriving DecidableEq, Repr

def initialSup : SupState := ⟨false, false, none, 0⟩

/-- Settling a JS promise: only the first `resolve`/`reject` takes
effect, later ones are ignored. -/
def settle (s : SupState) (o : UpOutcome) : SupState :=
  match s.settled with
  | none => { s with settled := some o, settleCount := s.settleCount + 1 }
  | some _ => s

/-- The `exit` listener: set `exited`, clear the timer, resolve on exit
code 0 and reject with the code otherwise. -/
def handleExit (code : Option Int) (s : SupState) : SupState :=
  let s := { s with exited := true }
  if code = some 0 then settle s .success else settle s (.exitFailure code)

/-- The timer callback: if the process has not exited, send SIGTERM and
reject with the timeout message; otherwise do nothing. -/
def handleTimer (s : SupState) : SupState :=
  if s.exited then s else settle { s with killed := true } .timeoutFailure

inductive SupEvent
  | exit (code : Option Int)
  | timerFire
deriving DecidableEq, Repr

def supStep (s : SupState) : SupEvent → SupState
  | .exit code => handleExit code s
  | .timerFire => handleTimer s

/-- Run one invocation under a given callback schedule. -/
def supRun (events : List SupEvent) : SupState :=
  events.foldl supStep initialSup

/-- Whether an event is an `exit` firing. -/
def isExitEvent : SupEvent → Bool
  | .exit _ => true
  | .timerFire => false

/-- A schedule an event loop can produce for one invocation: each
callback fires at most once. -/
def ValidSchedule (events : List SupEvent) : Prop :=
  (events.filter isExitEvent).length ≤ 1 ∧
  (events.filter (fun e => ¬ isExitEvent e)).length ≤ 1

/-- The outcome the claim assigns to the first event that fires. -/
def outcomeOfFirst : SupEvent → UpOutcome
  | .exit code => if code = some 0 then .success else .exitFailure code
  | .timerFire => .timeoutFailure

/-! ## The `run` pipeline (src/main.ts lines 10-179)

`run` is embedded as a pure function from the configuration (the
action inputs plus the `RUNNER_OS`/`RUNNER_ARCH` environment) and a
world oracle (HTTP responses, the downloaded bytes, file-system and
process-exec results) to the ordered list of external effects it
performs plus the final result.  Failure messages are short tags for
the corresponding `setFailed`/`throw` sites in the source. -/

structure Config where
  channel : String
  version : String
  authkey : String
  oauthSecret : String
  tags : String
  sha256sum : String
  args : String
  tailscaledArgs : String
  hostname : String
  statedir : String
  timeout : String
  runnerOS : String
  runnerArch : String

structure World where
  metadataStatus : String → Nat
  metadataVersion : String → Option String
  downloadRes : Except String Unit
  shaStatus : Nat
  shaBody : String
  artifact : List Nat
  installerRes : Except String Unit
  extractRes : Except String String
  tailscaledPresent : Bool
  hostnameOut : Except Unit String
  upRes : Except String Unit

inductive Effect
  | netMetadata (channel : String)
  | netDownload (url : String)
  | netShaFetch (url : String)
  | installWindows
  | extractTar
  | extractZip
  | launchDaemon (args : List String)
  | statusProbe
  | upCmd (args : List String) (timeoutMs : Nat)
deriving DecidableEq, Repr

inductive RunResult
  | success
  | failed (msg : String)
deriving DecidableEq, Repr

/-- `(process.env['RUNNER_ARCH'] || 'X64').toUpperCase()`. -/
def effArch (cfg : Config) : String :=
  upperStr (if cfg.runnerArch = "" then "X64" else cfg.runnerArch)

/-- `core.getInput('timeout') || '2m'`. -/
def effTimeout (cfg : Config) : String :=
  if cfg.timeout = "" then "2m" else cfg.timeout

/-- The identity validation of src/main.ts lines 34-39: the run is
rejected exactly when the authkey is empty and the OAuth pair is
incomplete. -/
def identityOk (authkey oauthSecret tags : String) : Bool :=
  ¬ (authkey = "" ∧ (oauthSecret = "" ∨ tags = ""))

/-- `fetchLatestFromChannel` (lines 240-253): require HTTP 200 and a
`Version` field in the JSON body. -/
def fetchLatestFromChannel (w : World) (channel : String) :
    Except String String :=
  if w.metadataStatus channel ≠ 200 then
    .error ("failed-fetch-latest-" ++ channel)
  else
    match w.metadataVersion channel with
    | none => .error ("no-version-field-" ++ channel)
    | some v => .ok v

/-- `fetchRemoteSha256` (lines 258-265): require HTTP 200, return the
trimmed body. -/
def fetchRemoteSha256 (w : World) : Except String String :=
  if w.shaStatus ≠ 200 then .error "http-error-fetching-sha256"
  else .ok (jsTrim w.shaBody)

/-- Channel/version resolution (lines 48-75): the metadata requests
performed, and either a failure or the resolved channel and version. -/
def resolveVersion (cfg : Config) (w : World) :
    List Effect × Except String (String × String) :=
  if cfg.channel ≠ "" then
    if cfg.channel ≠ "stable" ∧ cfg.channel ≠ "unstable" then
      ([], .error "invalid-channel")
    else
      ([.netMetadata cfg.channel],
       (fetchLatestFromChannel w cfg.channel).map fun v => (cfg.channel, v))
  else if cfg.version = "" then
    ([.netMetadata "stable"],
     (fetchLatestFromChannel w "stable").map fun v => ("stable", v))
  else if lowerStr cfg.version = "latest" then
    ([.netMetadata "stable"],
     (fetchLatestFromChannel w "stable").map fun v => ("stable", v))
  else
    ([], .ok ("stable", cfg.version))

/-- Lines 93-101: the expected checksum to use — the `sha256sum` input
if given, otherwise a best-effort fetch of `<url>.sha256` whose
failure leaves the checksum empty (warning only). -/
def effectiveShaPhase (cfg : Config) (w : World) (url : String) :
    List Effect × String :=
  if cfg.sha256sum = "" then
    ([.netShaFetch (url ++ ".sha256")],
     match fetchRemoteSha256 w with
     | .ok s => s
     | .error _ => "")
  else ([], cfg.sha256sum)

/-- Lines 104-115: when an expected checksum is known, compare the
computed digest with the whitespace-stripped expected value; a
mismatch throws. -/
def checksumPhase (sha : String) (bytes : List Nat) : Except String Unit :=
  if sha ≠ "" then
    if computeFileSha256 bytes ≠ stripAllWs sha then .error "sha256-mismatch"
    else .ok ()
  else .ok ()

/-- `startEphemeralTailscaled` (lines 283-314): build the daemon
argument list and launch it detached, then best-effort status probe
(probe failure is only a warning). -/
def startEphemeralTailscaled (daemonPath stateDir extraArgs : String) :
    List Effect :=
  let stateArg :=
    if stateDir ≠ "" then "--statedir=" ++ stateDir else "--state=mem:"
  [.launchDaemon (daemonPath :: stateArg :: splitArgs extraArgs), .statusProbe]

/-- Lines 117-150: Windows system install, ephemeral extraction with
daemon startup, or the warn-only fallback. -/
def installPhase (cfg : Config) (w : World) (pf : PlatFile) :
    List Effect × Except String Unit :=
  if pf.isWindowsInstaller ∧ cfg.runnerOS = "Windows" then
    ([.installWindows], w.installerRes)
  else if pf.needExtract then
    if strEndsWith pf.fileName ".tgz" ∨ strEndsWith pf.fileName ".tar.gz" then
      match w.extractRes with
      | .error e => ([.extractTar], .error e)
      | .ok dir =>
          if w.tailscaledPresent then
            (.extractTar ::
              startEphemeralTailscaled
                (dir ++ "/" ++ getTailscaledBinaryName cfg.runnerOS)
                cfg.statedir cfg.tailscaledArgs, .ok ())
          else ([.extractTar], .ok ())
    else if strEndsWith pf.fileName ".zip" then
      match w.extractRes with
      | .error e => ([.extractZip], .error e)
      | .ok dir =>
          if w.tailscaledPresent then
            (.extractZip ::
              startEphemeralTailscaled
                (dir ++ "/" ++ getTailscaledBinaryName cfg.runnerOS)
                cfg.statedir cfg.tailscaledArgs, .ok ())
          else ([.extractZip], .ok ())
    else ([], .error "unsupported-archive-extension")
  else ([], .ok ())

/-- Lines 153-158: the OAuth secret, when present, overrides the
authkey and is decorated with the preauthorized/ephemeral query. -/
def finalAuthKeyOf (cfg : Config) : String :=
  if cfg.oauthSecret ≠ "" then
    cfg.oauthSecret ++ "?preauthorized=true&ephemeral=true"
  else cfg.authkey

/-- Lines 154-158: tags are advertised exactly when the OAuth secret
is present. -/
def tagsArgOf (cfg : Config) : String :=
  if cfg.oauthSecret ≠ "" then "--advertise-tags=" ++ cfg.tags else ""

/-- Line 160: explicit hostname input, or `github-` plus the system
hostname. -/
def finalHostnameOf (cfg : Config) (w : World) : String :=
  if cfg.hostname ≠ "" then cfg.hostname
  else "github-" ++ readSystemHostname w.hostnameOut

/-- Lines 163-170: the argument vector of `tailscale up`; `.filter(Boolean)`
drops the empty strings. -/
def buildUpArgs (cfg : Config) (w : World) : List String :=
  (["up", tagsArgOf cfg,
    "--authkey=" ++ finalAuthKeyOf cfg,
    "--hostname=" ++ finalHostnameOf cfg w,
    "--accept-routes"] ++ splitArgs cfg.args).filter (fun a => a ≠ "")

/-- Lines 90-175, the pipeline from the download onward (the effect
trace is relative to the point after the download effect). -/
def afterDownload (cfg : Config) (w : World) (url : String) (pf : PlatFile) :
    List Effect × RunResult :=
  match w.downloadRes with
  | .error e => ([], .failed e)
  | .ok _ =>
    let shaPair := effectiveShaPhase cfg w url
    match checksumPhase shaPair.2 w.artifact with
    | .error e => (shaPair.1, .failed e)
    | .ok _ =>
      let instPair := installPhase cfg w pf
      match instPair.2 with
      | .error e => (shaPair.1 ++ instPair.1, .failed e)
      | .ok _ =>
        let upE := [Effect.upCmd (buildUpArgs cfg w)
          (parseDurationToMs (effTimeout cfg))]
        match w.upRes with
        | .error e => (shaPair.1 ++ instPair.1 ++ upE, .failed e)
        | .ok _ => (shaPair.1 ++ instPair.1 ++ upE, .success)

/-- The artifact URL: base URL of the resolved channel plus the
platform file name (lines 79-88). -/
def urlOf (cfg : Config) (ch ver : String) : String :=
  "https://pkgs.tailscale.com/" ++ ch ++ "/" ++
    (getPlatformFile cfg.runnerOS (effArch cfg) ver).fileName

/-- Lines 82-175, the pipeline once the channel and version are
resolved. -/
def afterResolve (cfg : Config) (w : World) (ch ver : String) :
    List Effect × RunResult :=
  let pf := getPlatformFile cfg.runnerOS (effArch cfg) ver
  if pf.fileName = "" then ([], .failed "unsupported-os-arch")
  else
    let out := afterDownload cfg w (urlOf cfg ch ver) pf
    (.netDownload (urlOf cfg ch ver) :: out.1, out.2)

/-- The whole `run` (lines 10-179). -/
def runModel (cfg : Config) (w : World) : List Effect × RunResult :=
  if cfg.channel ≠ "" ∧ cfg.version ≠ "" then
    ([], .failed "channel-version-mutually-exclusive")
  else if ¬ identityOk cfg.authkey cfg.oauthSecret cfg.tags then
    ([], .failed "oauth-identity-empty")
  else
    match resolveVersion cfg w with
    | (tr, .error e) => (tr, .failed e)
    | (tr, .ok (ch, ver)) =>
        let out := afterResolve cfg w ch ver
        (tr ++ out.1, out.2)

/-! ## Specification-side definitions

These follow the wording of the specification and of the claims, for
comparison with the embedded source functions above. -/

/-- Joining tokens back together "with single spaces" (claim C3). -/
def joinL : List (List Char) → List Char
  | [] => []
  | [t] => t
  | t :: ts => t ++ ' ' :: joinL ts

/-- String-level token join. -/
def joinTokens (ts : List String) : String :=
  ⟨joinL (ts.map String.data)⟩

/-- The decimal digit characters (`\d` in a JS regex). -/
def digitChars : List Char :=
  ['0', '1', '2', '3', '4', '5', '6', '7', '8', '9']

/-- Every case variant of the four duration units, capturing the
claim's "matched case-insensitively" over the ASCII units. -/
def unitVariants : List (List Char) :=
  [['m', 's'], ['m', 'S'], ['M', 's'], ['M', 'S'],
   ['s'], ['S'], ['m'], ['M'], ['h'], ['H']]

/-- The scale table of claim C5: {ms, s, m, h} ↦
{1, 1000, 60000, 3600000}. -/
def unitScaleOf (ul : List Char) : Nat :=
  if ul = ['m', 's'] then 1
  else if ul = ['s'] then 1000
  else if ul = ['m'] then 60000
  else if ul = ['h'] then 3600000
  else 0

/-- Modelled from the spec: a duration string "matching
`<integer><unit>` where unit ∈ {ms,s,m,h} (case-insensitive, optional
surrounding whitespace)". -/
def wellFormedDuration (s : String) : Bool :=
  let t := (lowerStr (jsTrim s)).data
  t.takeWhile Char.isDigit ≠ [] ∧
    (t.dropWhile Char.isDigit = ['m', 's'] ∨
     t.dropWhile Char.isDigit = ['s'] ∨
     t.dropWhile Char.isDigit = ['m'] ∨
     t.dropWhile Char.isDigit = ['h'])

/-- Modelled from the claim C1 wording: the expected value, "after
stripping whitespace and compared case-insensitively, equals the
hex-encoded SHA-256 digest of B". -/
def claimedChecksumOk (s : String) (bytes : List Nat) : Bool :=
  lowerStr (stripAllWs s) = lowerStr (computeFileSha256 bytes)

/-- Effects that belong to the install/extract step (claim C7). -/
def isInstallEffect : Effect → Bool
  | .installWindows => true
  | .extractTar => true
  | .extractZip => true
  | _ => false

/-! ## Concrete fixtures used by witnesses and counterexamples -/

/-- A configuration with an explicit version, authkey identity, Linux
x64 runner, and defaults everywhere else. -/
def cfgLinux : Config :=
  ⟨"", "1.2.3", "k", "", "", "", "", "", "", "", "", "Linux", "X64"⟩

/-- A configuration in which both identity forms are present and
non-empty. -/
def cfgBothIdentities : Config :=
  ⟨"", "1.2.3", "k", "secret", "tag:ci", "", "", "", "", "", "",
   "Linux", "X64"⟩

/-- A world where every oracle succeeds and the artifact is empty. -/
def wOk : World :=
  ⟨fun _ => 200, fun _ => some "1.80.0", .ok (), 200, "", [], .ok (),
   .ok "/tmp/ts", true, .ok " myhost \n", .ok ()⟩

/-- A world whose `.sha256` sibling fetch fails. -/
def wNoSha : World :=
  ⟨fun _ => 200, fun _ => some "1.80.0", .ok (), 404, "", [], .ok (),
   .ok "/tmp/ts", true, .error (), .ok ()⟩

/-! ## Lemmas: scanning primitives -/

lemma takeWhile_of_all {p : Char → Bool} {l : List Char}
    (h : ∀ c ∈ l, p c = true) : l.takeWhile p = l := by
  induction l with
  | nil => rfl
  | cons c l ih =>
      simp only [List.takeWhile_cons, h c (List.mem_cons_self c l), if_true]
      rw [ih fun d hd => h d (List.mem_cons_of_mem _ hd)]

lemma dropWhile_of_all {p : Char → Bool} {l : List Char}
    (h : ∀ c ∈ l, p c = true) : l.dropWhile p = [] := by
  induction l with
  | nil => rfl
  | cons c l ih =>
      simp only [List.dropWhile_cons, h c (List.mem_cons_self c l), if_true]
      exact ih fun d hd => h d (List.mem_cons_of_mem _ hd)

lemma takeWhile_append_stop {p : Char → Bool} {b : Char} (hb : p b = false) :
    ∀ u w : List Char, (u ++ b :: w).takeWhile p = u.takeWhile p := by
  intro u w
  induction u with
  | nil => simp [List.takeWhile_cons, hb]
  | cons c u ih =>
      by_cases hc : p c = true
      · simp only [List.cons_append, List.takeWhile_cons, if_pos hc, ih]
      · simp only [List.cons_append, List.takeWhile_cons, if_neg hc]

lemma dropWhile_append_stop {p : Char → Bool} {b : Char} (hb : p b = false) :
    ∀ u w : List Char, (u ++ b :: w).dropWhile p = u.dropWhile p ++ b :: w := by
  intro u w
  induction u with
  | nil => simp [List.dropWhile_cons, hb]
  | cons c u ih =>
      by_cases hc : p c = true
      · simp only [List.cons_append, List.dropWhile_cons, if_pos hc, ih]
      · simp only [List.cons_append, List.dropWhile_cons, if_neg hc]

lemma dropWhile_append_of_all {p : Char → Bool} {u : List Char}
    (h : ∀ c ∈ u, p c = true) (w : List Char) :
    (u ++ w).dropWhile p = w.dropWhile p := by
  induction u with
  | nil => rfl
  | cons c u ih =>
      simp only [List.cons_append, List.dropWhile_cons,
        h c (List.mem_cons_self c u), if_true]
      exact ih fun d hd => h d (List.mem_cons_of_mem _ hd)

lemma dropWhile_head_false {p : Char → Bool} {l : List Char}
    (h : ∀ c, l.head? = some c → p c = false) : l.dropWhile p = l := by
  cases l with
  | nil => rfl
  | cons c l => simp [List.dropWhile_cons, h c rfl]

/-! ## Lemmas: the tokenizer scan -/

lemma splitArgsGo_nil (f : Nat) : splitArgsGo f [] = [] := by
  cases f <;> rfl

lemma length_dropWhile_le (p : Char → Bool) (l : List Char) :
    (l.dropWhile p).length ≤ l.length :=
  (List.dropWhile_suffix p).length_le

lemma splitArgsGo_fuel :
    ∀ f g : Nat, ∀ cs : List Char, cs.length ≤ f → cs.length ≤ g →
      splitArgsGo f cs = splitArgsGo g cs := by
  intro f
  induction f with
  | zero =>
      intro g cs hf _
      rw [List.length_eq_zero.mp (Nat.le_zero.mp hf), splitArgsGo_nil,
        splitArgsGo_nil]
  | succ f ih =>
      intro g cs hf hg
      cases cs with
      | nil => rw [splitArgsGo_nil, splitArgsGo_nil]
      | cons c rest =>
          cases g with
          | zero => exact absurd hg (by simp)
          | succ g =>
              have hrest : rest.length ≤ f := Nat.lt_succ_iff.mp hf
              have hrest' : rest.length ≤ g := Nat.lt_succ_iff.mp hg
              rw [splitArgsGo, splitArgsGo]
              by_cases hsp : jsSpace c = true
              · simp only [if_pos hsp]
                exact ih g rest hrest hrest'
              · simp only [if_neg hsp]
                by_cases hq : c = '"'
                · simp only [if_pos hq]
                  cases hdrop : rest.dropWhile notQuote with
                  | nil => exact ih g rest hrest hrest'
                  | cons d after =>
                      have hlen : after.length ≤ rest.length := by
                        have h1 := length_dropWhile_le notQuote rest
                        rw [hdrop] at h1
                        exact Nat.le_of_succ_le (by simpa using h1)
                      exact congrArg _
                        (ih g after (le_trans hlen hrest)
                          (le_trans hlen hrest'))
                · simp only [if_neg hq]
                  have hbare : bareChar c = true := by
                    simp [bareChar, hsp, hq]
                  have hdw : (c :: rest).dropWhile bareChar =
                      rest.dropWhile bareChar := by
                    simp [List.dropWhile_cons, hbare]
                  have hlen := length_dropWhile_le bareChar rest
                  rw [hdw]
                  exact congrArg _
                    (ih g (rest.dropWhile bareChar)
                      (le_trans hlen hrest) (le_trans hlen hrest'))

lemma splitArgsGo_eq_splitArgsL {f : Nat} {cs : List Char}
    (h : cs.length ≤ f) : splitArgsGo f cs = splitArgsL cs :=
  splitArgsGo_fuel f cs.length cs h (le_refl _)

lemma splitArgsL_nil : splitArgsL [] = [] := rfl

lemma splitArgsL_space {c : Char} (rest : List Char) (h : jsSpace c = true) :
    splitArgsL (c :: rest) = splitArgsL rest := by
  show splitArgsGo (rest.length + 1) (c :: rest) = _
  rw [splitArgsGo]
  simp only [if_pos h]
  exact splitArgsGo_eq_splitArgsL (le_refl _)

lemma splitArgsL_bare {c : Char} (rest : List Char) (h : bareChar c = true) :
    splitArgsL (c :: rest) =
      (c :: rest).takeWhile bareChar ::
        splitArgsL ((c :: rest).dropWhile bareChar) := by
  have hsp : ¬ jsSpace c = true := by
    intro h'
    simp [bareChar, h'] at h
  have hq : ¬ c = '"' := by
    intro h'
    simp [bareChar, h'] at h
  show splitArgsGo (rest.length + 1) (c :: rest) = _
  rw [splitArgsGo]
  simp only [if_neg hsp, if_neg hq]
  congr 1
  refine splitArgsGo_eq_splitArgsL ?_
  calc ((c :: rest).dropWhile bareChar).length
      = (rest.dropWhile bareChar).length := by
        simp [List.dropWhile_cons, h]
    _ ≤ rest.length := length_dropWhile_le bareChar rest

lemma jsSpaceQuoteFalse : ¬ jsSpace '"' = true := by decide

lemma splitArgsL_quote_closed {interior : List Char} (after : List Char)
    (h : ∀ c ∈ interior, c ≠ '"') :
    splitArgsL ('"' :: (interior ++ '"' :: after)) =
      (if interior = [] then ['"', '"'] else interior) :: splitArgsL after := by
  have hall : ∀ c ∈ interior, notQuote c = true := by
    intro c hc
    simp [notQuote, h c hc]
  have hfq : notQuote '"' = false := by simp [notQuote]
  have hdrop : (interior ++ '"' :: after).dropWhile notQuote = '"' :: after := by
    rw [dropWhile_append_stop hfq, dropWhile_of_all hall, List.nil_append]
  have htake : (interior ++ '"' :: after).takeWhile notQuote = interior := by
    rw [takeWhile_append_stop hfq, takeWhile_of_all hall]
  have hfuel : after.length ≤ (interior ++ '"' :: after).length := by
    simp only [List.length_append, List.length_cons]
    omega
  show splitArgsGo ((interior ++ '"' :: after).length + 1) _ = _
  rw [splitArgsGo]
  simp only [if_neg jsSpaceQuoteFalse, if_pos rfl, if_true, hdrop, htake]
  cases interior with
  | nil =>
      simp only [if_pos rfl, if_true]
      exact congrArg _ (splitArgsGo_eq_splitArgsL hfuel)
  | cons i int =>
      simp only [if_neg (List.cons_ne_nil i int)]
      exact congrArg _ (splitArgsGo_eq_splitArgsL hfuel)

lemma splitArgsL_quote_open (rest : List Char) (h : ∀ c ∈ rest, c ≠ '"') :
    splitArgsL ('"' :: rest) = splitArgsL rest := by
  have hall : ∀ c ∈ rest, notQuote c = true := by
    intro c hc
    simp [notQuote, h c hc]
  show splitArgsGo (rest.length + 1) ('"' :: rest) = _
  rw [splitArgsGo]
  simp only [if_neg jsSpaceQuoteFalse, if_pos rfl, if_true,
    dropWhile_of_all hall]
  exact splitArgsGo_eq_splitArgsL (le_refl _)

lemma splitArgsL_single {t : List Char} (hne : t ≠ [])
    (hbare : ∀ c ∈ t, bareChar c = true) : splitArgsL t = [t] := by
  cases t with
  | nil => exact absurd rfl hne
  | cons c t' =>
      rw [splitArgsL_bare t' (hbare c (List.mem_cons_self c t')),
        takeWhile_of_all hbare, dropWhile_of_all hbare, splitArgsL_nil]

lemma splitArgsL_join :
    ∀ ts : List (List Char),
      (∀ t ∈ ts, t ≠ [] ∧ ∀ c ∈ t, bareChar c = true) →
      splitArgsL (joinL ts) = ts := by
  intro ts
  induction ts with
  | nil => intro _; rfl
  | cons t ts ih =>
      intro h
      obtain ⟨hne, hbare⟩ := h t (List.mem_cons_self t ts)
      cases ts with
      | nil => exact splitArgsL_single hne hbare
      | cons t2 ts2 =>
          have hjoin : joinL (t :: t2 :: ts2) = t ++ ' ' :: joinL (t2 :: ts2) :=
            rfl
          cases t with
          | nil => exact absurd rfl hne
          | cons c t' =>
              have hc : bareChar c = true := hbare c (List.mem_cons_self c t')
              have hbare' : ∀ d ∈ t', bareChar d = true := fun d hd =>
                hbare d (List.mem_cons_of_mem _ hd)
              have hspace : bareChar ' ' = false := by decide
              rw [hjoin,
                show (c :: t') ++ ' ' :: joinL (t2 :: ts2) =
                  c :: (t' ++ ' ' :: joinL (t2 :: ts2)) from rfl,
                splitArgsL_bare _ hc]
              have htake : (c :: (t' ++ ' ' :: joinL (t2 :: ts2))).takeWhile
                  bareChar = c :: t' := by
                rw [List.takeWhile_cons, if_pos hc, takeWhile_append_stop hspace,
                  takeWhile_of_all hbare']
              have hdrop : (c :: (t' ++ ' ' :: joinL (t2 :: ts2))).dropWhile
                  bareChar = ' ' :: joinL (t2 :: ts2) := by
                rw [List.dropWhile_cons, if_pos hc, dropWhile_append_stop hspace,
                  dropWhile_of_all hbare', List.nil_append]
              rw [htake, hdrop, splitArgsL_space _ (by decide),
                ih fun t ht => h t (List.mem_cons_of_mem _ ht)]

lemma bareCharQuoteFalse : bareChar '"' = false := by decide

lemma splitArgsL_empty_quote :
    ∀ n : Nat, ∀ u v : List Char, u.length ≤ n → (∀ c ∈ u, c ≠ '"') →
      splitArgsL (u ++ '"' :: '"' :: v) =
        splitArgsL u ++ ['"', '"'] :: splitArgsL v := by
  intro n
  induction n with
  | zero =>
      intro u v hu _
      rw [List.length_eq_zero.mp (Nat.le_zero.mp hu)]
      rw [show ([] : List Char) ++ '"' :: '"' :: v = '"' :: ([] ++ '"' :: v)
        from rfl, splitArgsL_quote_closed v (by simp)]
      simp [splitArgsL_nil]
  | succ n ih =>
      intro u v hu hq
      cases u with
      | nil =>
          rw [show ([] : List Char) ++ '"' :: '"' :: v = '"' :: ([] ++ '"' :: v)
            from rfl, splitArgsL_quote_closed v (by simp)]
          simp [splitArgsL_nil]
      | cons c u' =>
          have hu' : u'.length ≤ n := Nat.lt_succ_iff.mp hu
          have hq' : ∀ d ∈ u', d ≠ '"' := fun d hd =>
            hq d (List.mem_cons_of_mem _ hd)
          by_cases hsp : jsSpace c = true
          · rw [List.cons_append, splitArgsL_space _ hsp,
              splitArgsL_space u' hsp, ih u' v hu' hq']
          · have hc : bareChar c = true := by
              simp [bareChar, hsp, hq c (List.mem_cons_self c u')]
            rw [List.cons_append, splitArgsL_bare _ hc, splitArgsL_bare u' hc]
            have htake : (c :: (u' ++ '"' :: '"' :: v)).takeWhile bareChar =
                (c :: u').takeWhile bareChar := by
              rw [List.takeWhile_cons, if_pos hc,
                takeWhile_append_stop bareCharQuoteFalse, List.takeWhile_cons,
                if_pos hc]
            have hdrop : (c :: (u' ++ '"' :: '"' :: v)).dropWhile bareChar =
                (u'.dropWhile bareChar) ++ '"' :: '"' :: v := by
              rw [List.dropWhile_cons, if_pos hc,
                dropWhile_append_stop bareCharQuoteFalse]
            have hqd : ∀ d ∈ u'.dropWhile bareChar, d ≠ '"' := fun d hd =>
              hq' d ((List.dropWhile_suffix bareChar).subset hd)
            have hld : (u'.dropWhile bareChar).length ≤ n :=
              le_trans (length_dropWhile_le bareChar u') hu'
            rw [htake, hdrop, ih (u'.dropWhile bareChar) v hld hqd,
              show (c :: u').dropWhile bareChar = u'.dropWhile bareChar by
                rw [List.dropWhile_cons, if_pos hc]]
            simp

/-! ## Claim C3: tokenizer round trip -/

/-- Claim C3, counterexample: the input `a␣␣b` contains no double-quote
character, yet joining the tokens produced by `splitArgs` with single
spaces yields `a␣b`, which differs from the original string, so the
round-trip half of the claim is false as stated. -/
theorem c3_counterexample :
    (∀ c ∈ ("a  b" : String).data, c ≠ '"') ∧
      joinTokens (splitArgs "a  b") ≠ "a  b" := by
  constructor
  · decide
  · decide

/-- Claim C3, amended: for input strings that are single-space joins of
nonempty tokens free of whitespace and quotes (no leading, trailing or
repeated whitespace), tokenizing and rejoining with single spaces
reproduces the original; and a double-quoted segment with nonempty
interior containing a space yields exactly one token, the interior
with the quotes stripped. -/
theorem c3_tokenizer_roundtrip (ts : List String) (q : String)
    (hts : ∀ t ∈ ts, t.data ≠ [] ∧ ∀ c ∈ t.data, bareChar c = true)
    (hq1 : q.data ≠ []) (hq2 : ∀ c ∈ q.data, c ≠ '"') (hq3 : ' ' ∈ q.data) :
    (splitArgs (joinTokens ts) = ts ∧
       joinTokens (splitArgs (joinTokens ts)) = joinTokens ts) ∧
      splitArgs ("\"" ++ q ++ "\"") = [q] := by
  have h1 : splitArgs (joinTokens ts) = ts := by
    show (splitArgsL (joinL (ts.map String.data))).map
      (fun l => (⟨l⟩ : String)) = ts
    rw [splitArgsL_join (ts.map String.data) ?hvalid]
    case hvalid =>
      intro t ht
      obtain ⟨t', ht', rfl⟩ := List.mem_map.mp ht
      exact hts t' ht'
    rw [List.map_map]
    exact List.map_id ts
  refine ⟨⟨h1, by rw [h1]⟩, ?_⟩
  have hdata : ("\"" ++ q ++ "\"").data = '"' :: (q.data ++ '"' :: []) := by
    show ('"' :: q.data) ++ ['"'] = _
    simp
  show (splitArgsL ("\"" ++ q ++ "\"").data).map (fun l => (⟨l⟩ : String)) = _
  rw [hdata, splitArgsL_quote_closed [] hq2, if_neg hq1, splitArgsL_nil]
  rfl

/-- Claim C3, witness for the amended statement. -/
theorem c3_tokenizer_roundtrip_witness :
    (splitArgs (joinTokens ["--foo", "bar"]) = ["--foo", "bar"] ∧
       joinTokens (splitArgs (joinTokens ["--foo", "bar"])) =
         joinTokens ["--foo", "bar"]) ∧
      splitArgs ("\"" ++ "x y" ++ "\"") = ["x y"] :=
  c3_tokenizer_roundtrip ["--foo", "bar"] "x y" (by decide) (by decide)
    (by decide) (by decide)

/-! ## Claim C10: the empty quoted segment -/

/-- Claim C10: an empty double-quoted segment `""` produces the
two-character token consisting of the quote characters themselves —
quotes are stripped only from quoted segments with nonempty interior. -/
theorem c10_empty_quote_token (s t : String)
    (hs : ∀ c ∈ s.data, c ≠ '"') :
    splitArgs (s ++ "\"\"" ++ t) = splitArgs s ++ "\"\"" :: splitArgs t := by
  have hdata : (s ++ "\"\"" ++ t).data = s.data ++ '"' :: '"' :: t.data := by
    show (s.data ++ ['"', '"']) ++ t.data = _
    simp
  show (splitArgsL (s ++ "\"\"" ++ t).data).map (fun l => (⟨l⟩ : String)) = _
  rw [hdata,
    splitArgsL_empty_quote s.data.length s.data t.data (le_refl _) hs,
    List.map_append]
  rfl

/-- Claim C10, witness. -/
theorem c10_empty_quote_token_witness :
    splitArgs ("x" ++ "\"\"" ++ " y") =
      splitArgs "x" ++ "\"\"" :: splitArgs " y" :=
  c10_empty_quote_token "x" " y" (by decide)

/-! ## Claim C5: the duration parser -/

lemma jsTrim_decomp {core : List Char} (w1 w2 : List Char)
    (hw1 : ∀ c ∈ w1, jsSpace c = true) (hw2 : ∀ c ∈ w2, jsSpace c = true)
    (hne : core ≠ [])
    (hh : ∀ c, core.head? = some c → jsSpace c = false)
    (hl : ∀ c, core.getLast? = some c → jsSpace c = false) :
    (jsTrim ⟨w1 ++ core ++ w2⟩).data = core := by
  show (((w1 ++ core ++ w2).dropWhile jsSpace).reverse.dropWhile
    jsSpace).reverse = core
  have h1 : (w1 ++ core ++ w2).dropWhile jsSpace = core ++ w2 := by
    rw [List.append_assoc, dropWhile_append_of_all hw1]
    apply dropWhile_head_false
    intro c hc
    cases core with
    | nil => exact absurd rfl hne
    | cons c0 core' =>
        simp only [List.cons_append, List.head?_cons, Option.some.injEq] at hc
        exact hc ▸ hh c0 rfl
  have h2 : ((core ++ w2).reverse).dropWhile jsSpace = core.reverse := by
    rw [List.reverse_append,
      dropWhile_append_of_all fun c hc => hw2 c (List.mem_reverse.mp hc)]
    apply dropWhile_head_false
    intro c hc
    rw [List.head?_reverse] at hc
    exact hl c hc
  rw [h1, h2, List.reverse_reverse]

lemma wellFormedDuration_iff (s : String) :
    wellFormedDuration s = true ↔
      ((lowerStr (jsTrim s)).data.takeWhile Char.isDigit ≠ [] ∧
        ((lowerStr (jsTrim s)).data.dropWhile Char.isDigit = ['m', 's'] ∨
         (lowerStr (jsTrim s)).data.dropWhile Char.isDigit = ['s'] ∨
         (lowerStr (jsTrim s)).data.dropWhile Char.isDigit = ['m'] ∨
         (lowerStr (jsTrim s)).data.dropWhile Char.isDigit = ['h'])) := by
  simp [wellFormedDuration]

lemma data_mk (l : List Char) : (String.mk l).data = l := rfl

lemma parseDuration_pos (w1 w2 ds u ulow : List Char)
    (hw1 : ∀ c ∈ w1, jsSpace c = true) (hw2 : ∀ c ∈ w2, jsSpace c = true)
    (hds : ds ≠ []) (hdig : ∀ c ∈ ds, c ∈ digitChars)
    (hune : u ≠ [])
    (hulow : u.map Char.toLower = ulow)
    (hulast : ∀ c, u.getLast? = some c → jsSpace c = false)
    (hunit : ulow = ['m', 's'] ∨ ulow = ['s'] ∨ ulow = ['m'] ∨ ulow = ['h']) :
    parseDurationToMs ⟨w1 ++ (ds ++ u) ++ w2⟩ =
      natOfDigits ds * unitScaleOf ulow := by
  have hdigit_space : ∀ c ∈ digitChars, jsSpace c = false := by decide
  have hdigit_digit : ∀ c ∈ digitChars, Char.isDigit c = true := by decide
  have hdigit_lower : ∀ c ∈ digitChars, Char.toLower c = c := by decide
  obtain ⟨d, ds', rfl⟩ : ∃ d ds', ds = d :: ds' := by
    cases ds with
    | nil => exact absurd rfl hds
    | cons d ds' => exact ⟨d, ds', rfl⟩
  have htrim : (jsTrim ⟨w1 ++ ((d :: ds') ++ u) ++ w2⟩).data =
      (d :: ds') ++ u := by
    refine jsTrim_decomp w1 w2 hw1 hw2 (by simp) ?_ ?_
    · intro c hc
      simp only [List.cons_append, List.head?_cons, Option.some.injEq] at hc
      exact hc ▸ hdigit_space d (hdig d (List.mem_cons_self d ds'))
    · intro c hc
      rw [List.getLast?_append_of_ne_nil _ hune] at hc
      exact hulast c hc
  have hlow : (d :: ds').map Char.toLower = d :: ds' := by
    rw [List.map_eq_map_iff.mpr fun c hc => hdigit_lower c (hdig c hc)]
    exact List.map_id _
  simp only [parseDurationToMs, lowerStr, htrim, data_mk, List.map_append,
    hlow, hulow]
  rcases hunit with rfl | rfl | rfl | rfl <;>
  · rw [(takeWhile_append_stop (by decide) _ _).trans
        (takeWhile_of_all fun c hc => hdigit_digit c (hdig c hc)),
      (dropWhile_append_stop (by decide) _ _).trans
        (by rw [dropWhile_of_all fun c hc => hdigit_digit c (hdig c hc),
              List.nil_append])]
    simp [unitScaleOf]

/-- Claim C5: a duration string `<integer><unit>` with unit in
{ms, s, m, h}, matched case-insensitively with surrounding whitespace
ignored, parses to the integer scaled by {1, 1000, 60000, 3600000}
milliseconds; every other string parses to exactly 120000. -/
theorem c5_duration_parse (w1 w2 ds u : List Char)
    (hw1 : ∀ c ∈ w1, jsSpace c = true) (hw2 : ∀ c ∈ w2, jsSpace c = true)
    (hds : ds ≠ []) (hdig : ∀ c ∈ ds, c ∈ digitChars)
    (hu : u ∈ unitVariants) :
    parseDurationToMs ⟨w1 ++ (ds ++ u) ++ w2⟩ =
        natOfDigits ds * unitScaleOf (u.map Char.toLower) ∧
      ∀ s : String, wellFormedDuration s = false →
        parseDurationToMs s = 120000 := by
  constructor
  · simp only [unitVariants, List.mem_cons, List.not_mem_nil, or_false] at hu
    rcases hu with rfl | rfl | rfl | rfl | rfl | rfl | rfl | rfl | rfl | rfl <;>
      exact parseDuration_pos w1 w2 ds _ _ hw1 hw2 hds hdig (by decide)
        (by decide) (by decide) (by decide)
  · intro s hwf
    have hnot : ¬ ((lowerStr (jsTrim s)).data.takeWhile Char.isDigit ≠ [] ∧
        ((lowerStr (jsTrim s)).data.dropWhile Char.isDigit = ['m', 's'] ∨
         (lowerStr (jsTrim s)).data.dropWhile Char.isDigit = ['s'] ∨
         (lowerStr (jsTrim s)).data.dropWhile Char.isDigit = ['m'] ∨
         (lowerStr (jsTrim s)).data.dropWhile Char.isDigit = ['h'])) :=
      fun hc => by
        rw [(wellFormedDuration_iff s).mpr hc] at hwf
        exact absurd hwf (by simp)
    simp only [parseDurationToMs]
    rw [if_neg hnot]

/-- Claim C5, witness. -/
theorem c5_duration_parse_witness :
    parseDurationToMs ⟨" ".data ++ ("25".data ++ "M".data) ++ "\t".data⟩ =
        natOfDigits "25".data * unitScaleOf ("M".data.map Char.toLower) ∧
      ∀ s : String, wellFormedDuration s = false →
        parseDurationToMs s = 120000 :=
  c5_duration_parse " ".data "\t".data "25".data "M".data (by decide)
    (by decide) (by decide) (by decide) (by decide)

/-! ## Claim C1: checksum verification -/

lemma hexChar_not_space (n : Nat) : jsSpace (hexChar n) = false := by
  rcases Nat.lt_or_ge n 16 with h | h
  · interval_cases n <;> decide
  · rw [hexChar, if_neg (by omega), if_neg (by omega)]
    decide

lemma sha_hex_not_space (B : List Nat) :
    ∀ c ∈ (computeFileSha256 B).data, jsSpace c = false := by
  intro c hc
  simp only [computeFileSha256, data_mk] at hc
  obtain ⟨b, _, hcb⟩ := List.mem_flatMap.mp hc
  simp only [byteHex, List.mem_cons, List.not_mem_nil, or_false] at hcb
  rcases hcb with rfl | rfl <;> exact hexChar_not_space _

lemma sha_ne_empty (B : List Nat) : computeFileSha256 B ≠ "" := by
  intro h
  have h2 := congrArg String.data h
  simp [computeFileSha256, sha256bytes, be32, byteHex, data_mk] at h2

lemma filter_not_space_of_all {l : List Char}
    (h : ∀ c ∈ l, jsSpace c = true) :
    l.filter (fun c => ¬ jsSpace c) = [] := by
  induction l with
  | nil => rfl
  | cons c l ih =>
      simp only [List.filter_cons, h c (List.mem_cons_self c l)]
      simpa using ih fun d hd => h d (List.mem_cons_of_mem _ hd)

lemma filter_not_space_of_none {l : List Char}
    (h : ∀ c ∈ l, jsSpace c = false) :
    l.filter (fun c => ¬ jsSpace c) = l := by
  induction l with
  | nil => rfl
  | cons c l ih =>
      simp only [List.filter_cons, h c (List.mem_cons_self c l)]
      simpa using ih fun d hd => h d (List.mem_cons_of_mem _ hd)

set_option maxRecDepth 1000000 in
/-- Claim C1, counterexample: for the empty artifact, the uppercase
form of the digest equals the computed digest case-insensitively after
whitespace stripping — the claim says verification succeeds — but the
source compares the digest case-sensitively against the lowercase hex
encoding, so verification fails. -/
theorem c1_counterexample :
    claimedChecksumOk
        "E3B0C44298FC1C149AFBF4C8996FB92427AE41E4649B934CA495991B7852B855"
        [] = true ∧
      checksumPhase
        "E3B0C44298FC1C149AFBF4C8996FB92427AE41E4649B934CA495991B7852B855"
        [] = .error "sha256-mismatch" := by
  constructor
  · decide
  · rfl

/-- Claim C1 (amended): verification succeeds exactly when the
expected value, after stripping whitespace, equals the lowercase hex
SHA-256 digest of the artifact bytes with a case-sensitive comparison;
in particular the exact digest with surrounding whitespace is
accepted, while a differently-cased digest is rejected. -/
theorem c1_checksum_amended (B : List Nat) (s w1 w2 : String)
    (hs : s ≠ "")
    (hw1 : ∀ c ∈ w1.data, jsSpace c = true)
    (hw2 : ∀ c ∈ w2.data, jsSpace c = true) :
    (checksumPhase s B = .ok () ↔ stripAllWs s = computeFileSha256 B) ∧
      checksumPhase (w1 ++ computeFileSha256 B ++ w2) B = .ok () := by
  constructor
  · rw [show checksumPhase s B =
        (if computeFileSha256 B ≠ stripAllWs s then
          Except.error "sha256-mismatch" else Except.ok ()) from by
      rw [checksumPhase, if_pos hs]]
    by_cases hm : computeFileSha256 B = stripAllWs s <;>
      simp [hm, eq_comm]
  · have hstrip : stripAllWs (w1 ++ computeFileSha256 B ++ w2) =
        computeFileSha256 B := by
      show String.mk (((w1.data ++ (computeFileSha256 B).data) ++
        w2.data).filter _) = computeFileSha256 B
      rw [List.filter_append, List.filter_append,
        filter_not_space_of_all hw1,
        filter_not_space_of_none (sha_hex_not_space B),
        filter_not_space_of_all hw2, List.nil_append, List.append_nil]
    have hne : (w1 ++ computeFileSha256 B ++ w2) ≠ "" := by
      intro h
      have h2 := congrArg String.data h
      simp only [show (w1 ++ computeFileSha256 B ++ w2).data =
        (w1.data ++ (computeFileSha256 B).data) ++ w2.data from rfl] at h2
      rcases List.append_eq_nil.mp h2 with ⟨h3, -⟩
      rcases List.append_eq_nil.mp h3 with ⟨-, h4⟩
      exact sha_ne_empty B (by
        have := congrArg String.mk h4
        simpa using this)
    rw [checksumPhase, if_pos hne, if_neg (by rw [hstrip]; simp)]

set_option maxRecDepth 1000000 in
/-- Claim C1, witness for the amended statement, at the empty
artifact whose digest is the well-known
`e3b0c442…b855`, with surrounding whitespace. -/
theorem c1_checksum_amended_witness :
    ((checksumPhase
        "e3b0c44298fc1c149afbf4c8996fb92427ae41e4649b934ca495991b7852b855"
        [] = .ok () ↔
      stripAllWs
        "e3b0c44298fc1c149afbf4c8996fb92427ae41e4649b934ca495991b7852b855" =
        computeFileSha256 []) ∧
      checksumPhase (" " ++ computeFileSha256 [] ++ "\n") [] = .ok ()) :=
  c1_checksum_amended []
    "e3b0c44298fc1c149afbf4c8996fb92427ae41e4649b934ca495991b7852b855"
    " " "\n" (by decide) (by decide) (by decide)

/-! ## Claim C2: the `runWithTimeout` race -/

/-- Claim C2: under every event-loop schedule in which the exit
listener and the timer callback each run at most once, an invocation
of `runWithTimeout` settles its promise exactly once, with the outcome
of whichever handler ran first: exit code 0 resolves success, any
other exit code rejects carrying that code, and the timer running
first sends SIGTERM and rejects with the timeout message — the exit
handler and the timer handler never both settle the result. -/
theorem c2_run_with_timeout (events : List SupEvent) (e : SupEvent)
    (hv : ValidSchedule events) (hhead : events.head? = some e) :
    (supRun events).settled = some (outcomeOfFirst e) ∧
      (supRun events).settleCount = 1 ∧
      ((supRun events).killed = true ↔ e = .timerFire) := by
  cases events with
  | nil => simp at hhead
  | cons e1 rest =>
      simp only [List.head?_cons, Option.some.injEq] at hhead
      subst hhead
      cases rest with
      | nil =>
          cases e1 with
          | exit code =>
              by_cases hc : code = some 0 <;>
                simp [supRun, supStep, handleExit, handleTimer, settle,
                  initialSup, outcomeOfFirst, hc]
          | timerFire =>
              simp [supRun, supStep, handleExit, handleTimer, settle,
                initialSup, outcomeOfFirst]
      | cons e2 rest2 =>
          cases rest2 with
          | nil =>
              cases e1 with
              | exit code =>
                  cases e2 with
                  | exit code2 =>
                      exfalso
                      simp [ValidSchedule, isExitEvent] at hv
                  | timerFire =>
                      by_cases hc : code = some 0 <;>
                        simp [supRun, supStep, handleExit, handleTimer,
                          settle, initialSup, outcomeOfFirst, hc]
              | timerFire =>
                  cases e2 with
                  | exit code2 =>
                      by_cases hc : code2 = some 0 <;>
                        simp [supRun, supStep, handleExit, handleTimer,
                          settle, initialSup, outcomeOfFirst, hc]
                  | timerFire =>
                      exfalso
                      simp [ValidSchedule, isExitEvent] at hv
          | cons e3 rest3 =>
              exfalso
              obtain ⟨hv1, hv2⟩ := hv
              cases e1 <;> cases e2 <;> cases e3 <;>
                simp [isExitEvent] at hv1 hv2

/-- Claim C2, witness: the timer fires first, then the killed process
exits; the result is the timeout failure, settled once, SIGTERM sent. -/
theorem c2_run_with_timeout_witness :
    (supRun [.timerFire, .exit (some 0)]).settled =
        some (outcomeOfFirst .timerFire) ∧
      (supRun [.timerFire, .exit (some 0)]).settleCount = 1 ∧
      ((supRun [.timerFire, .exit (some 0)]).killed = true ↔
        (SupEvent.timerFire = .timerFire)) :=
  c2_run_with_timeout [.timerFire, .exit (some 0)] .timerFire
    (by constructor <;> decide) rfl

/-! ## Claim C4: identity validation -/

/-- Claim C4, counterexample: with the authkey, the OAuth client
secret and the tags all non-empty — both identity forms present — the
validation accepts the run and the pipeline proceeds to success,
whereas the claim says such a configuration is rejected as a
configuration error. -/
theorem c4_counterexample :
    identityOk "k" "secret" "tag:ci" = true ∧
      (runModel cfgBothIdentities wOk).2 = .success := by
  constructor
  · decide
  · rfl

/-- Claim C4 (amended): the validation accepts exactly when at least
one identity form is complete — non-empty authkey, or OAuth secret
together with non-empty tags; both forms may be present
simultaneously, in which case the OAuth secret takes precedence when
the up command is built. -/
theorem c4_identity_amended (a o t : String) (cfg : Config) :
    (identityOk a o t = true ↔ (a ≠ "" ∨ (o ≠ "" ∧ t ≠ ""))) ∧
      (cfg.oauthSecret ≠ "" →
        finalAuthKeyOf cfg =
            cfg.oauthSecret ++ "?preauthorized=true&ephemeral=true" ∧
          tagsArgOf cfg = "--advertise-tags=" ++ cfg.tags) := by
  constructor
  · simp only [identityOk, decide_eq_true_eq]
    tauto
  · intro ho
    rw [finalAuthKeyOf, if_pos ho, tagsArgOf, if_pos ho]
    exact ⟨rfl, rfl⟩

/-- Claim C4, witness for the amended statement. -/
theorem c4_identity_amended_witness :
    (identityOk "k" "secret" "tag:ci" = true ↔
        ("k" ≠ "" ∨ ("secret" ≠ "" ∧ "tag:ci" ≠ ""))) ∧
      (finalAuthKeyOf cfgBothIdentities =
          cfgBothIdentities.oauthSecret ++
            "?preauthorized=true&ephemeral=true" ∧
        tagsArgOf cfgBothIdentities =
          "--advertise-tags=" ++ cfgBothIdentities.tags) :=
  ⟨(c4_identity_amended "k" "secret" "tag:ci" cfgBothIdentities).1,
   (c4_identity_amended "k" "secret" "tag:ci" cfgBothIdentities).2
     (by decide)⟩

/-! ## Claim C6: channel and version are mutually exclusive -/

/-- Claim C6: when both the channel and the version inputs are
non-empty, the run fails with the mutual-exclusion configuration error
and performs no effect at all — in particular no metadata query and no
download. -/
theorem c6_mutual_exclusion (cfg : Config) (w : World)
    (hch : cfg.channel ≠ "") (hv : cfg.version ≠ "") :
    runModel cfg w = ([], .failed "channel-version-mutually-exclusive") := by
  rw [runModel, if_pos ⟨hch, hv⟩]

/-- Claim C6, witness. -/
theorem c6_mutual_exclusion_witness :
    runModel { cfgLinux with channel := "stable" } wOk =
      ([], .failed "channel-version-mutually-exclusive") :=
  c6_mutual_exclusion { cfgLinux with channel := "stable" } wOk
    (by decide) (by decide)

/-! ## Lemmas: pipeline stages -/

lemma runModel_resolved (cfg : Config) (w : World) {tr0 : List Effect}
    {ch ver : String}
    (hch : ¬ (cfg.channel ≠ "" ∧ cfg.version ≠ ""))
    (hid : identityOk cfg.authkey cfg.oauthSecret cfg.tags = true)
    (hres : resolveVersion cfg w = (tr0, .ok (ch, ver))) :
    runModel cfg w =
      (tr0 ++ (afterResolve cfg w ch ver).1,
        (afterResolve cfg w ch ver).2) := by
  rw [runModel, if_neg hch, if_neg (by simp [hid]), hres]

lemma afterResolve_spec (cfg : Config) (w : World) (ch ver : String)
    (hpf : (getPlatformFile cfg.runnerOS (effArch cfg) ver).fileName ≠ "") :
    afterResolve cfg w ch ver =
      (.netDownload (urlOf cfg ch ver) ::
          (afterDownload cfg w (urlOf cfg ch ver)
            (getPlatformFile cfg.runnerOS (effArch cfg) ver)).1,
        (afterDownload cfg w (urlOf cfg ch ver)
          (getPlatformFile cfg.runnerOS (effArch cfg) ver)).2) := by
  simp only [afterResolve]
  rw [if_neg hpf]

lemma resolveVersion_effects (cfg : Config) (w : World) :
    ∀ e ∈ (resolveVersion cfg w).1, ∃ ch, e = .netMetadata ch := by
  intro e he
  rw [resolveVersion] at he
  split_ifs at he <;> simp at he <;> exact ⟨_, he⟩

lemma effectiveShaPhase_effects (cfg : Config) (w : World) (url : String) :
    ∀ e ∈ (effectiveShaPhase cfg w url).1,
      e = .netShaFetch (url ++ ".sha256") := by
  intro e he
  rw [effectiveShaPhase] at he
  split_ifs at he <;> simp at he
  exact he

lemma afterDownload_mismatch (cfg : Config) (w : World) (url : String)
    (pf : PlatFile)
    (hdl : w.downloadRes = .ok ())
    (hsha : (effectiveShaPhase cfg w url).2 ≠ "")
    (hmm : computeFileSha256 w.artifact ≠
      stripAllWs (effectiveShaPhase cfg w url).2) :
    afterDownload cfg w url pf =
      ((effectiveShaPhase cfg w url).1, .failed "sha256-mismatch") := by
  have hc : checksumPhase (effectiveShaPhase cfg w url).2 w.artifact =
      .error "sha256-mismatch" := by
    rw [checksumPhase, if_pos hsha, if_pos hmm]
  simp only [afterDownload, hdl, hc]

lemma afterDownload_install_mem (cfg : Config) (w : World) (url : String)
    (pf : PlatFile)
    (hdl : w.downloadRes = .ok ())
    (hsha : (effectiveShaPhase cfg w url).2 = "")
    {e : Effect} (he : e ∈ (installPhase cfg w pf).1) :
    e ∈ (afterDownload cfg w url pf).1 := by
  have hc : checksumPhase (effectiveShaPhase cfg w url).2 w.artifact =
      .ok () := by
    rw [hsha, checksumPhase, if_neg (by simp)]
  simp only [afterDownload, hdl, hc]
  cases hi : (installPhase cfg w pf).2 <;> cases hu : w.upRes <;>
    simp [hi, hu, he]

lemma installPhase_tgz (cfg : Config) (w : World) (pf : PlatFile)
    (h1 : pf.isWindowsInstaller = false) (h2 : pf.needExtract = true)
    (h3 : strEndsWith pf.fileName ".tgz" = true) :
    ∃ rest, (installPhase cfg w pf).1 = .extractTar :: rest := by
  rw [installPhase, if_neg (by simp [h1]), if_pos (by simp [h2]),
    if_pos (Or.inl h3)]
  cases hres : w.extractRes with
  | error e => exact ⟨[], rfl⟩
  | ok dir =>
      by_cases hp : w.tailscaledPresent = true
      · exact ⟨startEphemeralTailscaled
          (dir ++ "/" ++ getTailscaledBinaryName cfg.runnerOS)
          cfg.statedir cfg.tailscaledArgs, by simp [hp]⟩
      · exact ⟨[], by simp [hp]⟩

lemma installPhase_zip (cfg : Config) (w : World) (pf : PlatFile)
    (h1 : pf.isWindowsInstaller = false) (h2 : pf.needExtract = true)
    (h3 : strEndsWith pf.fileName ".tgz" = false)
    (h4 : strEndsWith pf.fileName ".tar.gz" = false)
    (h5 : strEndsWith pf.fileName ".zip" = true) :
    ∃ rest, (installPhase cfg w pf).1 = .extractZip :: rest := by
  rw [installPhase, if_neg (by simp [h1]), if_pos (by simp [h2]),
    if_neg (by simp [h3, h4]), if_pos h5]
  cases hres : w.extractRes with
  | error e => exact ⟨[], rfl⟩
  | ok dir =>
      by_cases hp : w.tailscaledPresent = true
      · exact ⟨startEphemeralTailscaled
          (dir ++ "/" ++ getTailscaledBinaryName cfg.runnerOS)
          cfg.statedir cfg.tailscaledArgs, by simp [hp]⟩
      · exact ⟨[], by simp [hp]⟩

lemma strEndsWith_append (s suffix : String) :
    strEndsWith (s ++ suffix) suffix = true :=
  List.isSuffixOf_iff_suffix.mpr (List.suffix_append s.data suffix.data)

lemma strEndsWith_false (pre y x : String)
    (hnot1 : ¬ x.data <:+ y.data) (hnot2 : ¬ y.data <:+ x.data) :
    strEndsWith (pre ++ y) x = false := by
  rcases Bool.eq_false_or_eq_true (strEndsWith (pre ++ y) x) with h | h
  case inr => exact h
  · exfalso
    have hx : x.data <:+ pre.data ++ y.data :=
      List.isSuffixOf_iff_suffix.mp h
    have hy : y.data <:+ pre.data ++ y.data := List.suffix_append _ _
    rcases List.suffix_or_suffix_of_suffix hx hy with h2 | h2
    · exact hnot1 h2
    · exact hnot2 h2

lemma not_suffix_of_isSuffixOf_false {x y : List Char}
    (h : x.isSuffixOf y = false) : ¬ x <:+ y := fun hs => by
  rw [List.isSuffixOf_iff_suffix.mpr hs] at h
  exact absurd h (by simp)

lemma strEndsWith_of_suffix (pre y x : String) (h : x.data <:+ y.data) :
    strEndsWith (pre ++ y) x = true :=
  List.isSuffixOf_iff_suffix.mpr (h.trans (List.suffix_append _ _))

/-- For every supported platform the install phase records an
install/extract effect, whatever the extraction or installer oracle
answers. -/
lemma installPhase_install_effect (cfg : Config) (w : World) (ver : String)
    (hpf : (getPlatformFile cfg.runnerOS (effArch cfg) ver).fileName ≠ "") :
    ∃ e ∈ (installPhase cfg w
      (getPlatformFile cfg.runnerOS (effArch cfg) ver)).1,
      isInstallEffect e = true := by
  by_cases hlin : cfg.runnerOS = "Linux"
  · have h1 : (getPlatformFile cfg.runnerOS (effArch cfg)
        ver).isWindowsInstaller = false := by
      rw [getPlatformFile, if_pos hlin]
    have h2 : (getPlatformFile cfg.runnerOS (effArch cfg)
        ver).needExtract = true := by
      rw [getPlatformFile, if_pos hlin]
    have h3 : strEndsWith (getPlatformFile cfg.runnerOS (effArch cfg)
        ver).fileName ".tgz" = true := by
      rw [getPlatformFile, if_pos hlin]
      exact strEndsWith_append _ ".tgz"
    obtain ⟨rest, hrest⟩ := installPhase_tgz cfg w _ h1 h2 h3
    rw [hrest]
    exact ⟨.extractTar, List.mem_cons_self _ _, rfl⟩
  · by_cases hmac : cfg.runnerOS = "macOS"
    · have hzip : ∃ pre zipSuf : String,
          (".zip" : String).data <:+ zipSuf.data ∧
          ¬ (".tgz" : String).data <:+ zipSuf.data ∧
          ¬ zipSuf.data <:+ (".tgz" : String).data ∧
          ¬ (".tar.gz" : String).data <:+ zipSuf.data ∧
          ¬ zipSuf.data <:+ (".tar.gz" : String).data ∧
          (getPlatformFile cfg.runnerOS (effArch cfg) ver).fileName =
            pre ++ zipSuf := by
        by_cases harm : effArch cfg = "ARM64"
        · refine ⟨"Tailscale-" ++ ver, "-macos-arm64.zip",
            List.isSuffixOf_iff_suffix.mp (by decide),
            not_suffix_of_isSuffixOf_false (by decide),
            not_suffix_of_isSuffixOf_false (by decide),
            not_suffix_of_isSuffixOf_false (by decide),
            not_suffix_of_isSuffixOf_false (by decide), ?_⟩
          rw [getPlatformFile, if_neg hlin, if_pos hmac, if_pos harm]
        · refine ⟨"Tailscale-" ++ ver, "-macos.zip",
            List.isSuffixOf_iff_suffix.mp (by decide),
            not_suffix_of_isSuffixOf_false (by decide),
            not_suffix_of_isSuffixOf_false (by decide),
            not_suffix_of_isSuffixOf_false (by decide),
            not_suffix_of_isSuffixOf_false (by decide), ?_⟩
          rw [getPlatformFile, if_neg hlin, if_pos hmac, if_neg harm]
      obtain ⟨pre, zipSuf, hz1, hz2, hz3, hz4, hz5, hfn⟩ := hzip
      have h1 : (getPlatformFile cfg.runnerOS (effArch cfg)
          ver).isWindowsInstaller = false := by
        rw [getPlatformFile, if_neg hlin, if_pos hmac]
        by_cases harm : effArch cfg = "ARM64"
        · rw [if_pos harm]
        · rw [if_neg harm]
      have h2 : (getPlatformFile cfg.runnerOS (effArch cfg)
          ver).needExtract = true := by
        rw [getPlatformFile, if_neg hlin, if_pos hmac]
        by_cases harm : effArch cfg = "ARM64"
        · rw [if_pos harm]
        · rw [if_neg harm]
      obtain ⟨rest, hrest⟩ := installPhase_zip cfg w _ h1 h2
        (by rw [hfn]; exact strEndsWith_false pre zipSuf ".tgz" hz2 hz3)
        (by rw [hfn]; exact strEndsWith_false pre zipSuf ".tar.gz" hz4 hz5)
        (by rw [hfn]; exact strEndsWith_of_suffix pre zipSuf ".zip" hz1)
      rw [hrest]
      exact ⟨.extractZip, List.mem_cons_self _ _, rfl⟩
    · by_cases hwin : cfg.runnerOS = "Windows"
      · have h1 : (getPlatformFile cfg.runnerOS (effArch cfg)
            ver).isWindowsInstaller = true := by
          rw [getPlatformFile, if_neg hlin, if_neg hmac, if_pos hwin]
        rw [installPhase, if_pos ⟨h1, hwin⟩]
        exact ⟨.installWindows, List.mem_cons_self _ _, rfl⟩
      · exfalso
        rw [getPlatformFile, if_neg hlin, if_neg hmac, if_neg hwin] at hpf
        exact hpf rfl

/-! ## Claim C7: integrity errors are fatal, missing checksums are not -/

/-- Claim C7: when an expected checksum is known (supplied or fetched)
and differs from the computed digest of the artifact, the run fails
with the integrity error and its effect trace contains no install or
extract effect; when no checksum could be obtained at all (input
absent and the `.sha256` fetch failing), the pipeline proceeds to the
install/extract step. -/
theorem c7_integrity (cfg : Config) (w : World) (tr0 : List Effect)
    (chv : String × String)
    (hch : ¬ (cfg.channel ≠ "" ∧ cfg.version ≠ ""))
    (hid : identityOk cfg.authkey cfg.oauthSecret cfg.tags = true)
    (hres : resolveVersion cfg w = (tr0, .ok chv))
    (hpf : (getPlatformFile cfg.runnerOS (effArch cfg) chv.2).fileName ≠ "")
    (hdl : w.downloadRes = .ok ()) :
    ((effectiveShaPhase cfg w (urlOf cfg chv.1 chv.2)).2 ≠ "" →
      computeFileSha256 w.artifact ≠
        stripAllWs (effectiveShaPhase cfg w (urlOf cfg chv.1 chv.2)).2 →
      (runModel cfg w).2 = .failed "sha256-mismatch" ∧
        ∀ e ∈ (runModel cfg w).1, isInstallEffect e = false) ∧
      (cfg.sha256sum = "" → w.shaStatus ≠ 200 →
        ∃ e ∈ (runModel cfg w).1, isInstallEffect e = true) := by
  obtain ⟨ch, ver⟩ := chv
  have hrun := runModel_resolved cfg w hch hid hres
  have hars := afterResolve_spec cfg w ch ver hpf
  constructor
  · intro hsha hmm
    have had := afterDownload_mismatch cfg w (urlOf cfg ch ver)
      (getPlatformFile cfg.runnerOS (effArch cfg) ver) hdl hsha hmm
    rw [hrun, hars, had]
    refine ⟨rfl, ?_⟩
    intro e he
    simp only [List.mem_append, List.mem_cons] at he
    rcases he with h0 | h1 | h2
    · obtain ⟨c, rfl⟩ := resolveVersion_effects cfg w e
        (by rw [hres]; exact h0)
      rfl
    · rw [h1]
      rfl
    · rw [effectiveShaPhase_effects cfg w _ e h2]
      rfl
  · intro hs0 hst
    have hsha2 : (effectiveShaPhase cfg w (urlOf cfg ch ver)).2 = "" := by
      rw [effectiveShaPhase, if_pos hs0]
      simp only [fetchRemoteSha256, if_pos hst]
    obtain ⟨e, hmem, hie⟩ := installPhase_install_effect cfg w ver hpf
    refine ⟨e, ?_, hie⟩
    rw [hrun, hars]
    have hmem2 := afterDownload_install_mem cfg w (urlOf cfg ch ver) _
      hdl hsha2 hmem
    simp [hmem2]

set_option maxRecDepth 1000000 in
/-- Claim C7, witness. -/
theorem c7_integrity_witness :
    ((runModel { cfgLinux with sha256sum := "deadbeef" } wOk).2 =
        .failed "sha256-mismatch" ∧
      ∀ e ∈ (runModel { cfgLinux with sha256sum := "deadbeef" } wOk).1,
        isInstallEffect e = false) ∧
      (∃ e ∈ (runModel cfgLinux wNoSha).1, isInstallEffect e = true) :=
  ⟨(c7_integrity { cfgLinux with sha256sum := "deadbeef" } wOk []
      ("stable", "1.2.3") (by decide) (by decide) rfl (by decide) rfl).1
      (by decide) (by decide),
   (c7_integrity cfgLinux wNoSha [] ("stable", "1.2.3") (by decide)
      (by decide) rfl (by decide) rfl).2 rfl (by decide)⟩

/-! ## Claim C8: release resolution with no channel -/

/-- Claim C8: with no channel input the resolver queries the stable
channel's latest metadata when the version input is empty or equals
`latest` case-insensitively, and produces the returned version; an
explicit version is used verbatim and the download URL is rooted at
the stable channel. -/
theorem c8_release_resolver (cfg : Config) (w : World) (v : String)
    (hch : cfg.channel = "") :
    ((cfg.version = "" ∨ lowerStr cfg.version = "latest") →
        fetchLatestFromChannel w "stable" = .ok v →
        resolveVersion cfg w =
          ([.netMetadata "stable"], .ok ("stable", v))) ∧
      (cfg.version ≠ "" → lowerStr cfg.version ≠ "latest" →
        resolveVersion cfg w = ([], .ok ("stable", cfg.version))) ∧
      (cfg.version ≠ "" → lowerStr cfg.version ≠ "latest" →
        identityOk cfg.authkey cfg.oauthSecret cfg.tags = true →
        (getPlatformFile cfg.runnerOS (effArch cfg)
          cfg.version).fileName ≠ "" →
        (runModel cfg w).1.head? =
          some (.netDownload (urlOf cfg "stable" cfg.version))) := by
  have hnotch : ¬ cfg.channel ≠ "" := by simp [hch]
  refine ⟨?_, ?_, ?_⟩
  · intro hlat hok
    rw [resolveVersion, if_neg hnotch]
    rcases hlat with he | hl
    · rw [if_pos he, hok]
      rfl
    · by_cases he : cfg.version = ""
      · rw [if_pos he, hok]
        rfl
      · rw [if_neg he, if_pos hl, hok]
        rfl
  · intro hv hl
    rw [resolveVersion, if_neg hnotch, if_neg hv, if_neg hl]
  · intro hv hl hid hpf
    have hres : resolveVersion cfg w = ([], .ok ("stable", cfg.version)) := by
      rw [resolveVersion, if_neg hnotch, if_neg hv, if_neg hl]
    rw [runModel_resolved cfg w (by simp [hch]) hid hres,
      afterResolve_spec cfg w _ _ hpf]
    rfl

/-- Claim C8, witness. -/
theorem c8_release_resolver_witness :
    resolveVersion { cfgLinux with version := "Latest" } wOk =
        ([.netMetadata "stable"], .ok ("stable", "1.80.0")) ∧
      resolveVersion cfgLinux wOk = ([], .ok ("stable", cfgLinux.version)) ∧
      (runModel cfgLinux wOk).1.head? =
        some (.netDownload (urlOf cfgLinux "stable" cfgLinux.version)) :=
  ⟨(c8_release_resolver { cfgLinux with version := "Latest" } wOk "1.80.0"
      (by decide)).1 (Or.inr (by decide)) rfl,
   (c8_release_resolver cfgLinux wOk "1.80.0" (by decide)).2.1
      (by decide) (by decide),
   (c8_release_resolver cfgLinux wOk "1.80.0" (by decide)).2.2
      (by decide) (by decide) (by decide) (by decide)⟩

/-! ## Claim C9: the default hostname -/

/-- Claim C9: with an empty hostname input, the up command carries a
`--hostname=` argument equal to `github-` followed by the trimmed
stdout of the `hostname` command, and `github-unknown-host` when
reading the system hostname fails. -/
theorem c9_default_hostname (cfg : Config) (w : World)
    (hh : cfg.hostname = "") :
    ("--hostname=" ++ finalHostnameOf cfg w) ∈ buildUpArgs cfg w ∧
      (∀ out, w.hostnameOut = .ok out →
        finalHostnameOf cfg w = "github-" ++ jsTrim out) ∧
      (w.hostnameOut = .error () →
        finalHostnameOf cfg w = "github-unknown-host") := by
  refine ⟨?_, ?_, ?_⟩
  · have hne : ("--hostname=" ++ finalHostnameOf cfg w) ≠ "" := by
      intro hcon
      have h2 := congrArg String.data hcon
      rw [show ("--hostname=" ++ finalHostnameOf cfg w).data =
          '-' :: ("-hostname=".data ++ (finalHostnameOf cfg w).data)
          from rfl,
        show ("" : String).data = [] from rfl] at h2
      exact List.cons_ne_nil _ _ h2
    rw [buildUpArgs]
    refine List.mem_filter.mpr ⟨by simp, by simpa using hne⟩
  · intro out hout
    rw [finalHostnameOf, if_neg (by simp [hh]), hout]
    rfl
  · intro herr
    rw [finalHostnameOf, if_neg (by simp [hh]), herr]
    rfl

/-- Claim C9, witness. -/
theorem c9_default_hostname_witness :
    ("--hostname=" ++ finalHostnameOf cfgLinux wOk) ∈
        buildUpArgs cfgLinux wOk ∧
      finalHostnameOf cfgLinux wOk = "github-" ++ jsTrim " myhost \n" ∧
      finalHostnameOf cfgLinux wNoSha = "github-unknown-host" :=
  ⟨(c9_default_hostname cfgLinux wOk (by decide)).1,
   (c9_default_hostname cfgLinux wOk (by decide)).2.1 " myhost \n" rfl,
   (c9_default_hostname cfgLinux wNoSha (by decide)).2.2 rfl⟩

end ActionTailscale
